import Mathlib

/-!
# EveryoneCalculator: the expression parser, the evaluator and the broadcast hub

A shallow embedding of `main.go`.

* Go strings are byte sequences (`len`, `s[i:]`, `s[i:j]` all count bytes), so a
  string is a `List UInt8`.
* `float64`, its four arithmetic operations and `strconv.ParseFloat` belong to the
  Go runtime and standard library, not to this program.  They are parameters of
  the embedding: `Float64Ops F` carries the constant `0` and the operations, and
  `ParseFloat : GoString → Option F` is `some v` exactly when the library returns
  a nil error together with the value `v`.
* An `error` built by `errors.New` is represented by its message.
* The server is a transition system over the `clients` map, the set of open
  connections and the log of `WriteMessage` calls.
-/

namespace EveryoneCalculator

/-! ## Strings -/

/-- A Go `string`: an immutable sequence of bytes. -/
abbrev GoString := List UInt8

/-- The bytes of a Go string literal (its UTF-8 encoding). -/
def str (s : String) : GoString := s.toList.flatMap String.utf8EncodeChar

/-- Go `strings.HasPrefix(s, p)`. -/
def HasPrefix (s p : GoString) : Bool := p.isPrefixOf s

/-- Go slice expression `s[lo:hi]` (used only with `lo ≤ hi ≤ len(s)`). -/
def substr (s : GoString) (lo hi : Nat) : GoString := (s.drop lo).take (hi - lo)

/-! ## `splitExpressionWithDelimiter` (main.go 122-139) -/

/-- The condition of the `if` in the loop body: `s[i:]` starts with one of the
four operator strings. -/
def isDelimiterAt (s : GoString) (i : Nat) : Bool :=
  HasPrefix (s.drop i) (str "+") ||
  HasPrefix (s.drop i) (str "-") ||
  HasPrefix (s.drop i) (str "*") ||
  HasPrefix (s.drop i) (str "/")

/-- One iteration of the `for i` loop on the loop state `(result, start)`. -/
def splitStep (s : GoString) (st : List GoString × Nat) (i : Nat) : List GoString × Nat :=
  if isDelimiterAt s i then
    ((st.1 ++ [substr s st.2 i]) ++ [substr s i (i + 1)], i + 1)
  else
    st

/-- The function `splitExpressionWithDelimiter`: run the loop for
`i = 0 .. len(s)-1`, then append the tail `s[start:]`. -/
def splitExpressionWithDelimiter (s : GoString) : List GoString :=
  let st := (List.range s.length).foldl (splitStep s) ([], 0)
  st.1 ++ [s.drop st.2]

/-! ## `float64` and `strconv.ParseFloat` as parameters -/

/-- The part of `float64` the program uses: the literal `0` and the operators
`+ - * /`. -/
structure Float64Ops (F : Type) where
  zero : F
  add : F → F → F
  sub : F → F → F
  mul : F → F → F
  div : F → F → F

/-- A Go `error` created by `errors.New`, represented by its message; `none` is
the nil error. -/
abbrev GoError := Option String

/-! ## `parseExpression` (main.go 95-120) -/

/-- The function `parseExpression`; the four returned values are
`(first, operator, second, err)`. -/
def parseExpression {F : Type} (ops : Float64Ops F) (ParseFloat : GoString → Option F)
    (expression : GoString) : F × GoString × F × GoError :=
  if expression.length = 0 then
    (ops.zero, str "", ops.zero, some "no expression to evaluate")
  else
    let result := splitExpressionWithDelimiter expression
    if result.length ≠ 3 then
      (ops.zero, str "", ops.zero, some "invalid expression")
    else
      match ParseFloat (result.getD 0 []) with
      | none => (ops.zero, str "", ops.zero, some "invalid first number")
      | some processedFirst =>
        match ParseFloat (result.getD 2 []) with
        | none => (ops.zero, str "", ops.zero, some "invalid second number")
        | some processedSecond =>
          let processedOperator := result.getD 1 []
          (processedFirst, processedOperator, processedSecond, none)

/-! ## `calculateExpression` (main.go 141-154) -/

/-- The function `calculateExpression`; the returned values are `(result, err)`. -/
def calculateExpression {F : Type} (ops : Float64Ops F) (first second : F)
    (operator : GoString) : F × GoError :=
  if operator = str "+" then (ops.add first second, none)
  else if operator = str "-" then (ops.sub first second, none)
  else if operator = str "*" then (ops.mul first second, none)
  else if operator = str "/" then (ops.div first second, none)
  else (ops.zero, some "invalid operator")

/-! ## The body of the session loop (main.go 49-62) -/

/-- How one iteration of the `for` loop of `compute` ends once a message has been
decoded: by one of the two `break`s, or by sending the formatted line built from
`(first, operator, second, result)` on the `broadcast` channel. -/
inductive LoopOutcome (F : Type) where
  | breakParse (err : String)
  | breakCalculate (err : String)
  | enqueue (first : F) (operator : GoString) (second : F) (result : F)

/-- Lines 49-62 of `compute` for a decoded `message.Expression`. -/
def computeBody {F : Type} (ops : Float64Ops F) (ParseFloat : GoString → Option F)
    (expression : GoString) : LoopOutcome F :=
  match parseExpression ops ParseFloat expression with
  | (_, _, _, some err) => LoopOutcome.breakParse err
  | (first, operator, second, none) =>
    match calculateExpression ops first second operator with
    | (_, some err) => LoopOutcome.breakCalculate err
    | (result, none) => LoopOutcome.enqueue first operator second result

/-! ## The hub: the `clients` map and `broadCastMessages` (main.go 20-22, 29-79) -/

/-- A `*websocket.Conn`, identified by its address. -/
abbrev Conn := Nat

/-- State of the server.  `clients` lists the keys of the map `clients` (every
stored value is `true`); `live` lists the connections a handler has upgraded and
whose deferred `c.Close()` has not run; `closed` lists those whose `c.Close()`
has run; `written` logs the calls `c.WriteMessage(TextMessage, message)` in the
order they were made. -/
structure Server where
  clients : List Conn
  live : List Conn
  closed : List Conn
  written : List (Conn × GoString)

/-- The server at start-up: `clients` is the empty map, no connection exists. -/
def Server.init : Server := ⟨[], [], [], []⟩

/-- The inner loop `for c := range clients` of `broadCastMessages` (lines 69-75)
over the connections in the order the map yields them: each connection is
written to, and the loop `break`s after a write that returns an error.  The
result lists the `WriteMessage` calls made. -/
def writeLoop (writeFails : Conn → Bool) (message : GoString) :
    List Conn → List (Conn × GoString)
  | [] => []
  | c :: rest =>
    if writeFails c then [(c, message)]
    else (c, message) :: writeLoop writeFails message rest

/-- One iteration of the outer loop of `broadCastMessages`: a message is taken
from the channel and `writeLoop` runs over the keys of `clients` in the order
`order`; nothing but the log of writes changes. -/
def broadCastRound (s : Server) (message : GoString) (order : List Conn)
    (writeFails : Conn → Bool) : Server :=
  { s with written := s.written ++ writeLoop writeFails message order }

/-- The steps of the server. -/
inductive Event where
  /-- A handler `compute` upgrades a request to the new connection `c` and
  stores `clients[c] = true` (lines 30-39). -/
  | connect (c : Conn)
  /-- The read loop of the handler of `c` ends by a `break` and the deferred
  `c.Close()` runs (lines 35, 41-63). -/
  | terminate (c : Conn)
  /-- One broadcast round (lines 68-75); `order` is the order in which `range`
  yields the keys and `writeFails` tells which writes return an error. -/
  | broadcast (message : GoString) (order : List Conn) (writeFails : Conn → Bool)

/-- Effect of a step; a step that is not enabled leaves the state as it is.
`connect c` needs a fresh `c`, `terminate c` needs a live `c`, `broadcast` needs
`order` to enumerate the keys of `clients`. -/
def step (s : Server) : Event → Server
  | Event.connect c =>
    if c ∈ s.live ∨ c ∈ s.closed then s
    else { s with live := c :: s.live, clients := List.insert c s.clients }
  | Event.terminate c =>
    if c ∈ s.live then { s with live := s.live.erase c, closed := c :: s.closed }
    else s
  | Event.broadcast message order writeFails =>
    if order.Perm s.clients then broadCastRound s message order writeFails
    else s

/-- The state reached from start-up by a sequence of steps. -/
def run (evs : List Event) : Server := evs.foldl step Server.init

/-! ## An instance of the parameters, for evaluating on concrete inputs -/

/-- Value of a non-empty string of ASCII digits read in base ten, `none` for any
other string. -/
def decimalValue : GoString → Option Nat
  | [] => none
  | s => s.foldl
      (fun acc c => acc.bind fun n =>
        if 48 ≤ c.toNat ∧ c.toNat ≤ 57 then some (10 * n + (c.toNat - 48)) else none)
      (some 0)

/-- Exact integer arithmetic standing in for `float64` when the definitions are
evaluated on concrete inputs (no rounding, no infinities; the quotient is the
truncated one). -/
def sampleOps : Float64Ops Int :=
  { zero := 0, add := Int.add, sub := Int.sub, mul := Int.mul, div := Int.tdiv }

/-- A `ParseFloat` restricted to unsigned decimal integer literals, on which
`strconv.ParseFloat` returns the same number with a nil error; every other
string, the empty one included, is rejected. -/
def sampleParseFloat (s : GoString) : Option Int := (decimalValue s).map Int.ofNat

/-! ## Vocabulary for the statements -/

/-- The byte is one of the characters `+ - * /`. -/
def isOperatorByte (c : UInt8) : Bool := decide (c ∈ str "+-*/")

/-- The string contains at least one of the characters `+ - * /`. -/
def containsOperator (s : GoString) : Bool := s.any isOperatorByte

/-- Number of positions of the string holding one of the characters `+ - * /`. -/
def operatorCount (s : GoString) : Nat := s.countP isOperatorByte

/-- Everything before the first operator character. -/
def beforeFirstOperator (s : GoString) : GoString :=
  s.takeWhile fun c => !isOperatorByte c

/-- The first operator character, as a one-byte string (empty when there is none). -/
def firstOperator (s : GoString) : GoString :=
  (s.dropWhile fun c => !isOperatorByte c).take 1

/-- Everything after the first operator character. -/
def afterFirstOperator (s : GoString) : GoString :=
  (s.dropWhile fun c => !isOperatorByte c).drop 1

/-- The four operator strings accepted by `calculateExpression`. -/
def operatorStrings : List GoString := [str "+", str "-", str "*", str "/"]

/-- Tokens produced by scanning the rest of a string when `cur` is the text
read since the last operator: an auxiliary description of the loop. -/
def splitAux (cur : GoString) : GoString → List GoString
  | [] => [cur]
  | c :: rest =>
    if isOperatorByte c then cur :: [c] :: splitAux [] rest
    else splitAux (cur ++ [c]) rest

/-- What holds of every reachable state of the server: the keys of `clients` are
the connections that are live or closed, no connection is both, and neither
`live` nor `clients` lists a connection twice. -/
structure Server.Inv (s : Server) : Prop where
  registered : ∀ c, c ∈ s.clients ↔ c ∈ s.live ∨ c ∈ s.closed
  live_nodup : s.live.Nodup
  disjoint : ∀ c, c ∈ s.live → c ∉ s.closed
  clients_nodup : s.clients.Nodup

/-! ## Lemmas on the splitter -/

theorem isOperatorByte_iff (c : UInt8) :
    isOperatorByte c = true ↔ c = 43 ∨ c = 45 ∨ c = 42 ∨ c = 47 := by
  have h : str "+-*/" = [43, 45, 42, 47] := by decide
  simp [isOperatorByte, h]

theorem isDelimiterAt_of_drop (s : GoString) (i : Nat) (c : UInt8) (rest : GoString)
    (h : s.drop i = c :: rest) : isDelimiterAt s i = isOperatorByte c := by
  have h1 : str "+" = [43] := by decide
  have h2 : str "-" = [45] := by decide
  have h3 : str "*" = [42] := by decide
  have h4 : str "/" = [47] := by decide
  have hp : ∀ k : UInt8, HasPrefix (c :: rest) [k] = true ↔ c = k := by
    intro k
    simp only [HasPrefix, List.isPrefixOf, Bool.and_true, beq_iff_eq]
    exact eq_comm
  rw [Bool.eq_iff_iff, isOperatorByte_iff]
  simp only [isDelimiterAt, h, h1, h2, h3, h4, Bool.or_eq_true, hp, or_assoc]

theorem substr_succ (s : GoString) (start i : Nat) (c : UInt8) (rest : GoString)
    (hle : start ≤ i) (h : s.drop i = c :: rest) :
    substr s start (i + 1) = substr s start i ++ [c] := by
  have hget : (s.drop start)[i - start]? = some c := by
    rw [List.getElem?_drop]
    have : start + (i - start) = i := by omega
    rw [this, ← List.head?_drop, h]
    rfl
  have hsub : i + 1 - start = (i - start) + 1 := by omega
  unfold substr
  rw [hsub, List.take_succ, hget]
  rfl

theorem split_fold (s : GoString) :
    ∀ (n i : Nat) (res : List GoString) (start : Nat),
      i + n = s.length → start ≤ i →
      ((List.range' i n).foldl (splitStep s) (res, start)).1 ++
          [s.drop ((List.range' i n).foldl (splitStep s) (res, start)).2]
        = res ++ splitAux (substr s start i) (s.drop i) := by
  intro n
  induction n with
  | zero =>
    intro i res start hlen hle
    have hi : i = s.length := by omega
    subst hi
    simp [splitAux, substr, List.take_of_length_le]
  | succ n ih =>
    intro i res start hlen hle
    have hlt : i < s.length := by omega
    obtain ⟨c, rest, hdrop⟩ : ∃ c rest, s.drop i = c :: rest := by
      cases hd : s.drop i with
      | nil =>
        have := congrArg List.length hd
        simp at this
        omega
      | cons c rest => exact ⟨c, rest, rfl⟩
    have hrest : s.drop (i + 1) = rest := by
      have : s.drop (i + 1) = (s.drop i).drop 1 := by
        rw [List.drop_drop]
      rw [this, hdrop]
      rfl
    have hdel := isDelimiterAt_of_drop s i c rest hdrop
    rw [List.range'_succ, List.foldl_cons]
    by_cases hop : isOperatorByte c = true
    · have hstep : splitStep s (res, start) i
          = ((res ++ [substr s start i]) ++ [substr s i (i + 1)], i + 1) := by
        simp [splitStep, hdel, hop]
      rw [hstep, ih (i + 1) _ (i + 1) (by omega) (le_refl _)]
      have h1 : substr s i (i + 1) = [c] := by
        simp [substr, hdrop]
      have h0 : substr s (i + 1) (i + 1) = [] := by
        simp [substr]
      rw [h1, h0, hrest, hdrop]
      simp [splitAux, hop]
    · have hstep : splitStep s (res, start) i = (res, start) := by
        simp [splitStep, hdel, hop]
      rw [hstep, ih (i + 1) res start (by omega) (by omega)]
      rw [substr_succ s start i c rest hle hdrop, hdrop, hrest]
      simp [splitAux, hop]

theorem split_eq_splitAux (s : GoString) :
    splitExpressionWithDelimiter s = splitAux [] s := by
  have h := split_fold s s.length 0 [] 0 (by omega) (le_refl _)
  simpa [splitExpressionWithDelimiter, List.range_eq_range', substr] using h

theorem splitAux_noOperator (a : GoString) :
    ∀ cur : GoString, containsOperator a = false → splitAux cur a = [cur ++ a] := by
  induction a with
  | nil => intro cur _; simp [splitAux]
  | cons c rest ih =>
    intro cur h
    simp only [containsOperator, List.any_cons, Bool.or_eq_false_iff] at h
    have hrest : containsOperator rest = false := h.2
    simp [splitAux, h.1, ih (cur ++ [c]) hrest]

theorem splitAux_first (a : GoString) (c : UInt8) (b : GoString)
    (hc : isOperatorByte c = true) :
    ∀ cur : GoString, containsOperator a = false →
      splitAux cur (a ++ c :: b) = (cur ++ a) :: [c] :: splitAux [] b := by
  induction a with
  | nil => intro cur _; simp [splitAux, hc]
  | cons d rest ih =>
    intro cur h
    simp only [containsOperator, List.any_cons, Bool.or_eq_false_iff] at h
    have hrest : containsOperator rest = false := h.2
    simp [splitAux, h.1, ih (cur ++ [d]) hrest]

theorem splitAux_length (s : GoString) :
    ∀ cur : GoString, (splitAux cur s).length = 2 * operatorCount s + 1 := by
  induction s with
  | nil => intro cur; simp [splitAux, operatorCount]
  | cons c rest ih =>
    intro cur
    by_cases hc : isOperatorByte c = true
    · have h := ih []
      simp only [operatorCount] at h ⊢
      simp [splitAux, hc, h]
      omega
    · have h := ih (cur ++ [c])
      simp only [operatorCount] at h ⊢
      simp [splitAux, hc, h]

theorem operatorCount_eq_zero (s : GoString) :
    operatorCount s = 0 ↔ containsOperator s = false := by
  induction s with
  | nil => simp [operatorCount, containsOperator]
  | cons c rest ih =>
    by_cases hc : isOperatorByte c = true
    · simp [operatorCount, containsOperator, hc]
    · simp only [operatorCount, containsOperator] at ih
      simp [operatorCount, containsOperator, hc, ih]

theorem first_operator_decomposition (s : GoString) (h : containsOperator s = true) :
    ∃ c, isOperatorByte c = true ∧ firstOperator s = [c] ∧
      containsOperator (beforeFirstOperator s) = false ∧
      s = beforeFirstOperator s ++ c :: afterFirstOperator s := by
  induction s with
  | nil => simp [containsOperator] at h
  | cons d rest ih =>
    by_cases hd : isOperatorByte d = true
    · refine ⟨d, hd, ?_, ?_, ?_⟩ <;>
        simp [firstOperator, beforeFirstOperator, afterFirstOperator, containsOperator, hd]
    · have hrest : containsOperator rest = true := by
        simpa [containsOperator, hd] using h
      obtain ⟨c, hc, h1, h2, h3⟩ := ih hrest
      refine ⟨c, hc, ?_, ?_, ?_⟩
      · simpa [firstOperator, hd] using h1
      · simp only [beforeFirstOperator, containsOperator] at h2
        simp [beforeFirstOperator, containsOperator, hd, h2]
      · simp only [beforeFirstOperator, afterFirstOperator] at h3
        simp only [beforeFirstOperator, afterFirstOperator, hd, Bool.not_eq_true,
          Bool.not_false, List.takeWhile_cons_of_pos, List.dropWhile_cons_of_pos,
          List.cons_append]
        exact congrArg (List.cons d) h3

theorem operatorCount_append_cons (a : GoString) (c : UInt8) (b : GoString) :
    operatorCount (a ++ c :: b)
      = operatorCount a + (if isOperatorByte c then 1 else 0) + operatorCount b := by
  simp [operatorCount, List.countP_append, List.countP_cons]
  omega

/-- The splitter cuts at the first operator character and goes on splitting what
follows it. -/
theorem split_first (s : GoString) (h : containsOperator s = true) :
    splitExpressionWithDelimiter s
      = beforeFirstOperator s :: firstOperator s ::
          splitExpressionWithDelimiter (afterFirstOperator s) := by
  obtain ⟨c, hc, h1, h2, h3⟩ := first_operator_decomposition s h
  rw [split_eq_splitAux, split_eq_splitAux, h1]
  conv_lhs => rw [h3]
  rw [splitAux_first _ c _ hc [] h2]
  rfl

theorem split_length (s : GoString) :
    (splitExpressionWithDelimiter s).length = 2 * operatorCount s + 1 := by
  rw [split_eq_splitAux]
  exact splitAux_length s []

theorem split_noOperator (s : GoString) (h : containsOperator s = false) :
    splitExpressionWithDelimiter s = [s] := by
  rw [split_eq_splitAux, splitAux_noOperator s [] h]
  rfl

theorem split_single (a : GoString) (c : UInt8) (b : GoString)
    (ha : containsOperator a = false) (hc : isOperatorByte c = true)
    (hb : containsOperator b = false) :
    splitExpressionWithDelimiter (a ++ c :: b) = [a, [c], b] := by
  rw [split_eq_splitAux, splitAux_first a c b hc [] ha, splitAux_noOperator b [] hb]
  rfl

/-! ## Lemmas on `parseExpression` -/

theorem split_nil : splitExpressionWithDelimiter [] = [[]] := by decide

theorem parseExpression_three_tokens {F : Type} (ops : Float64Ops F)
    (ParseFloat : GoString → Option F) (s a o b : GoString)
    (h : splitExpressionWithDelimiter s = [a, o, b]) :
    parseExpression ops ParseFloat s =
      match ParseFloat a with
      | none => (ops.zero, str "", ops.zero, some "invalid first number")
      | some x =>
        match ParseFloat b with
        | none => (ops.zero, str "", ops.zero, some "invalid second number")
        | some y => (x, o, y, none) := by
  have hs : s.length ≠ 0 := by
    intro h0
    have : s = [] := List.length_eq_zero.mp h0
    rw [this, split_nil] at h
    simp at h
  simp only [parseExpression, hs, if_false, h]
  simp

theorem parseExpression_not_three_tokens {F : Type} (ops : Float64Ops F)
    (ParseFloat : GoString → Option F) (s : GoString) (hs : s ≠ [])
    (h : (splitExpressionWithDelimiter s).length ≠ 3) :
    parseExpression ops ParseFloat s
      = (ops.zero, str "", ops.zero, some "invalid expression") := by
  have hs0 : s.length ≠ 0 := fun h0 => hs (List.length_eq_zero.mp h0)
  simp [parseExpression, hs0, h]

theorem split_of_single_operator (s : GoString) (h : operatorCount s = 1) :
    splitExpressionWithDelimiter s
      = [beforeFirstOperator s, firstOperator s, afterFirstOperator s] := by
  have hc : containsOperator s = true := by
    cases hcs : containsOperator s with
    | true => rfl
    | false =>
      have := (operatorCount_eq_zero s).mpr hcs
      omega
  obtain ⟨c, hop, h1, h2, h3⟩ := first_operator_decomposition s hc
  have hcount := operatorCount_append_cons (beforeFirstOperator s) c (afterFirstOperator s)
  rw [← h3, h, (operatorCount_eq_zero _).mpr h2, hop] at hcount
  have hafter : containsOperator (afterFirstOperator s) = false := by
    apply (operatorCount_eq_zero _).mp
    simp at hcount
    omega
  rw [split_first s hc, split_noOperator _ hafter]

theorem firstOperator_mem (s : GoString) (h : containsOperator s = true) :
    firstOperator s ∈ operatorStrings := by
  obtain ⟨c, hop, h1, _, _⟩ := first_operator_decomposition s h
  rw [h1]
  have hs : operatorStrings = [[43], [45], [42], [47]] := by decide
  rw [hs]
  rcases (isOperatorByte_iff c).mp hop with h | h | h | h <;> simp [h]

theorem calculateExpression_of_mem {F : Type} (ops : Float64Ops F) (first second : F)
    (operator : GoString) (h : operator ∈ operatorStrings) :
    (calculateExpression ops first second operator).2 = none := by
  have hs : operatorStrings = [str "+", str "-", str "*", str "/"] := rfl
  rw [hs] at h
  simp only [List.mem_cons, List.mem_singleton, List.not_mem_nil, or_false] at h
  unfold calculateExpression
  split_ifs with h1 h2 h3 h4
  · rfl
  · rfl
  · rfl
  · rfl
  · rcases h with h | h | h | h <;> contradiction

/-! ## Lemmas on the hub -/

theorem inv_init : Server.init.Inv :=
  ⟨by simp [Server.init], by simp [Server.init], by simp [Server.init],
    by simp [Server.init]⟩

theorem inv_step (s : Server) (e : Event) (h : s.Inv) : (step s e).Inv := by
  obtain ⟨hreg, hnd, hdis, hcn⟩ := h
  cases e with
  | connect c =>
    by_cases hc : c ∈ s.live ∨ c ∈ s.closed
    · simpa [step, hc] using (⟨hreg, hnd, hdis, hcn⟩ : s.Inv)
    · have hl : c ∉ s.live := fun h => hc (Or.inl h)
      have hcl : c ∉ s.closed := fun h => hc (Or.inr h)
      simp only [step, hc, if_false]
      refine ⟨?_, ?_, ?_, ?_⟩
      · intro d
        simp only [List.mem_insert_iff, List.mem_cons, hreg d]
        tauto
      · exact List.nodup_cons.mpr ⟨hl, hnd⟩
      · intro d hd
        rcases List.mem_cons.mp hd with h | h
        · rw [h]; exact hcl
        · exact hdis d h
      · exact hcn.insert
  | terminate c =>
    by_cases hc : c ∈ s.live
    · simp only [step, hc, if_true]
      refine ⟨?_, ?_, ?_, hcn⟩
      · intro d
        simp only [hreg d, List.mem_cons, hnd.mem_erase_iff]
        by_cases hdc : d = c
        · subst hdc; simp [hc]
        · simp [hdc]
      · exact hnd.erase c
      · intro d hd
        have := (hnd.mem_erase_iff).mp hd
        simp only [List.mem_cons, not_or]
        exact ⟨this.1, hdis d this.2⟩
    · simpa [step, hc] using (⟨hreg, hnd, hdis, hcn⟩ : s.Inv)
  | broadcast message order writeFails =>
    by_cases hp : order.Perm s.clients
    · simp only [step, hp, if_true, broadCastRound]
      exact ⟨hreg, hnd, hdis, hcn⟩
    · simpa [step, hp] using (⟨hreg, hnd, hdis, hcn⟩ : s.Inv)

theorem inv_foldl (evs : List Event) :
    ∀ s : Server, s.Inv → (evs.foldl step s).Inv := by
  induction evs with
  | nil => intro s h; exact h
  | cons e rest ih => intro s h; exact ih _ (inv_step s e h)

theorem inv_run (evs : List Event) : (run evs).Inv :=
  inv_foldl evs Server.init inv_init

theorem clients_step_mono (s : Server) (e : Event) (c : Conn) (h : c ∈ s.clients) :
    c ∈ (step s e).clients := by
  cases e with
  | connect d =>
    by_cases hd : d ∈ s.live ∨ d ∈ s.closed
    · simpa [step, hd] using h
    · simp only [step, hd, if_false, List.mem_insert_iff]
      exact Or.inr h
  | terminate d =>
    by_cases hd : d ∈ s.live
    · simpa [step, hd] using h
    · simpa [step, hd] using h
  | broadcast message order writeFails =>
    by_cases hp : order.Perm s.clients
    · simpa [step, hp, broadCastRound] using h
    · simpa [step, hp] using h

theorem writeLoop_all_ok (writeFails : Conn → Bool) (message : GoString)
    (order : List Conn) (h : ∀ c ∈ order, writeFails c = false) :
    writeLoop writeFails message order = order.map fun c => (c, message) := by
  induction order with
  | nil => rfl
  | cons c rest ih =>
    have hc : writeFails c = false := h c (List.mem_cons_self c rest)
    have hrest : ∀ d ∈ rest, writeFails d = false :=
      fun d hd => h d (List.mem_cons_of_mem c hd)
    simp [writeLoop, hc, ih hrest]

theorem writeLoop_first_failure (writeFails : Conn → Bool) (message : GoString)
    (pre : List Conn) (c : Conn) (post : List Conn)
    (hpre : ∀ x ∈ pre, writeFails x = false) (hc : writeFails c = true) :
    writeLoop writeFails message (pre ++ c :: post)
      = (pre ++ [c]).map fun x => (x, message) := by
  induction pre with
  | nil => simp [writeLoop, hc]
  | cons d rest ih =>
    have hd : writeFails d = false := hpre d (List.mem_cons_self d rest)
    have hrest : ∀ x ∈ rest, writeFails x = false :=
      fun x hx => hpre x (List.mem_cons_of_mem d hx)
    simp [writeLoop, hd, ih hrest]

/-! ## The parser -/

/-- C1: for strings `a` and `b` without any of the characters `+ - * /` that
`ParseFloat` accepts as the numbers `x` and `y`, and for an operator character
`c`, `parseExpression (a ++ c ++ b)` returns `(x, c, y)` with a nil error. -/
theorem parseExpression_operands_and_operator {F : Type} (ops : Float64Ops F)
    (ParseFloat : GoString → Option F) (a b : GoString) (c : UInt8) (x y : F)
    (ha : containsOperator a = false) (hb : containsOperator b = false)
    (hc : isOperatorByte c = true)
    (hx : ParseFloat a = some x) (hy : ParseFloat b = some y) :
    parseExpression ops ParseFloat (a ++ [c] ++ b) = (x, [c], y, none) := by
  have hsplit : splitExpressionWithDelimiter (a ++ [c] ++ b) = [a, [c], b] := by
    simpa using split_single a c b ha hc hb
  rw [parseExpression_three_tokens ops ParseFloat _ a [c] b hsplit, hx, hy]

/-- Instances of C1: `"3+4"` parses to `(3, "+", 4)` and `"10/2"` to
`(10, "/", 2)`, both with a nil error. -/
theorem parseExpression_operands_and_operator_witness :
    (sampleParseFloat (str "3") = some 3 ∧ sampleParseFloat (str "4") = some 4 ∧
      parseExpression sampleOps sampleParseFloat (str "3+4") = (3, str "+", 4, none)) ∧
    (sampleParseFloat (str "10") = some 10 ∧ sampleParseFloat (str "2") = some 2 ∧
      parseExpression sampleOps sampleParseFloat (str "10/2") = (10, str "/", 2, none)) :=
  ⟨⟨by decide, by decide,
      parseExpression_operands_and_operator sampleOps sampleParseFloat (str "3") (str "4") 43
        3 4 (by decide) (by decide) (by decide) (by decide) (by decide)⟩,
    ⟨by decide, by decide,
      parseExpression_operands_and_operator sampleOps sampleParseFloat (str "10") (str "2") 47
        10 2 (by decide) (by decide) (by decide) (by decide) (by decide)⟩⟩

/-- C2 fails as stated: `"3+-4"` contains an operator character, yet the
splitter returns the five tokens `"3"`, `"+"`, `""`, `"-"`, `"4"` and not the
three tokens `"3"`, `"+"`, `"-4"` cut at the first operator only. -/
theorem split_later_operator_counterexample :
    containsOperator (str "3+-4") = true ∧
    [beforeFirstOperator (str "3+-4"), firstOperator (str "3+-4"),
        afterFirstOperator (str "3+-4")] = [str "3", str "+", str "-4"] ∧
    splitExpressionWithDelimiter (str "3+-4")
      = [str "3", str "+", str "", str "-", str "4"] ∧
    splitExpressionWithDelimiter (str "3+-4") ≠ [str "3", str "+", str "-4"] := by
  decide

/-- C2, amended: for an input with at least one operator character the first two
tokens are everything before the first operator character and that character,
and the remaining tokens are the split of everything after it, so that every
operator position is split on and `k` operator characters give `2k+1` tokens;
the result is the three tokens before / operator / after exactly when the input
has one operator character. -/
theorem split_at_every_operator (s : GoString) (h : containsOperator s = true) :
    splitExpressionWithDelimiter s
        = beforeFirstOperator s :: firstOperator s ::
            splitExpressionWithDelimiter (afterFirstOperator s) ∧
    (splitExpressionWithDelimiter s).length = 2 * operatorCount s + 1 ∧
    (operatorCount s = 1 ↔
      splitExpressionWithDelimiter s
        = [beforeFirstOperator s, firstOperator s, afterFirstOperator s]) := by
  refine ⟨split_first s h, split_length s, split_of_single_operator s, ?_⟩
  intro h3
  have hlen := split_length s
  rw [h3] at hlen
  simp at hlen
  omega

/-- Instances of amended C2: `"3+-4"` gives five tokens, `"3+4"` gives three. -/
theorem split_at_every_operator_witness :
    (containsOperator (str "3+-4") = true ∧
      splitExpressionWithDelimiter (str "3+-4")
        = str "3" :: str "+" :: splitExpressionWithDelimiter (str "-4") ∧
      (splitExpressionWithDelimiter (str "3+-4")).length = 2 * 2 + 1) ∧
    (operatorCount (str "3+4") = 1 ∧
      splitExpressionWithDelimiter (str "3+4") = [str "3", str "+", str "4"]) :=
  ⟨⟨by decide, (split_at_every_operator (str "3+-4") (by decide)).1,
      (split_at_every_operator (str "3+-4") (by decide)).2.1⟩,
    ⟨by decide, (split_at_every_operator (str "3+4") (by decide)).2.2.mp (by decide)⟩⟩

/-- C3 fails as stated: `"-5*3"` starts with an operator character, the empty
string is not a number, and yet `parseExpression` fails with "invalid
expression" (the split has five tokens), not with "invalid first number". -/
theorem parseExpression_leading_sign_counterexample :
    str "-5*3" = 45 :: str "5*3" ∧ isOperatorByte 45 = true ∧
    sampleParseFloat (str "") = none ∧
    splitExpressionWithDelimiter (str "-5*3")
      = [str "", str "-", str "5", str "*", str "3"] ∧
    parseExpression sampleOps sampleParseFloat (str "-5*3")
      = (0, str "", 0, some "invalid expression") ∧
    parseExpression sampleOps sampleParseFloat (str "-5*3")
      ≠ (0, str "", 0, some "invalid first number") := by
  decide

/-- C3, amended: when the first character is an operator character and
`ParseFloat` rejects the empty string, `parseExpression` fails with "invalid
first number" if no other operator character follows (the left token is empty),
and with "invalid expression" if one does. -/
theorem parseExpression_leading_operator {F : Type} (ops : Float64Ops F)
    (ParseFloat : GoString → Option F) (c : UInt8) (rest : GoString)
    (hc : isOperatorByte c = true) (hempty : ParseFloat [] = none) :
    (containsOperator rest = false →
      splitExpressionWithDelimiter (c :: rest) = [[], [c], rest] ∧
      parseExpression ops ParseFloat (c :: rest)
        = (ops.zero, str "", ops.zero, some "invalid first number")) ∧
    (containsOperator rest = true →
      parseExpression ops ParseFloat (c :: rest)
        = (ops.zero, str "", ops.zero, some "invalid expression")) := by
  constructor
  · intro hrest
    have hsplit : splitExpressionWithDelimiter (c :: rest) = [[], [c], rest] := by
      simpa using split_single [] c rest (by decide) hc hrest
    refine ⟨hsplit, ?_⟩
    rw [parseExpression_three_tokens ops ParseFloat _ [] [c] rest hsplit, hempty]
  · intro hrest
    apply parseExpression_not_three_tokens ops ParseFloat _ (List.cons_ne_nil c rest)
    have hpos : operatorCount rest ≠ 0 := by
      intro h0
      rw [(operatorCount_eq_zero rest).mp h0] at hrest
      exact Bool.noConfusion hrest
    have hcount : operatorCount (c :: rest) = operatorCount rest + 1 := by
      simp [operatorCount, List.countP_cons, hc]
    rw [split_length, hcount]
    omega

/-- Instances of amended C3: `"-5"` fails with "invalid first number", `"-5*3"`
with "invalid expression". -/
theorem parseExpression_leading_operator_witness :
    (isOperatorByte 45 = true ∧ sampleParseFloat [] = none ∧
      containsOperator (str "5") = false ∧
      parseExpression sampleOps sampleParseFloat (str "-5")
        = (0, str "", 0, some "invalid first number")) ∧
    (containsOperator (str "5*3") = true ∧
      parseExpression sampleOps sampleParseFloat (str "-5*3")
        = (0, str "", 0, some "invalid expression")) :=
  ⟨⟨by decide, by decide, by decide,
      ((parseExpression_leading_operator sampleOps sampleParseFloat 45 (str "5")
        (by decide) (by decide)).1 (by decide)).2⟩,
    ⟨by decide,
      (parseExpression_leading_operator sampleOps sampleParseFloat 45 (str "5*3")
        (by decide) (by decide)).2 (by decide)⟩⟩

/-- C4: for an input with exactly one operator character, `parseExpression`
returns `(0, "", 0)` with the error "invalid first number" when `ParseFloat`
rejects the text before the operator, and otherwise with the error "invalid
second number" when it rejects the text after the operator. -/
theorem parseExpression_invalid_operand {F : Type} (ops : Float64Ops F)
    (ParseFloat : GoString → Option F) (s : GoString) (h : operatorCount s = 1) :
    (ParseFloat (beforeFirstOperator s) = none →
      parseExpression ops ParseFloat s
        = (ops.zero, str "", ops.zero, some "invalid first number")) ∧
    (ParseFloat (beforeFirstOperator s) ≠ none →
      ParseFloat (afterFirstOperator s) = none →
      parseExpression ops ParseFloat s
        = (ops.zero, str "", ops.zero, some "invalid second number")) := by
  have hp := parseExpression_three_tokens ops ParseFloat s _ _ _
    (split_of_single_operator s h)
  constructor
  · intro h1
    rw [hp, h1]
  · intro h1 h2
    obtain ⟨x, hx⟩ := Option.ne_none_iff_exists'.mp h1
    rw [hp, hx, h2]

/-- Instances of C4: `"abc+2"` fails on the first number, `"3+"` on the second
(its right token is empty). -/
theorem parseExpression_invalid_operand_witness :
    (operatorCount (str "abc+2") = 1 ∧ beforeFirstOperator (str "abc+2") = str "abc" ∧
      sampleParseFloat (str "abc") = none ∧
      parseExpression sampleOps sampleParseFloat (str "abc+2")
        = (0, str "", 0, some "invalid first number")) ∧
    (operatorCount (str "3+") = 1 ∧ afterFirstOperator (str "3+") = str "" ∧
      sampleParseFloat (str "3") ≠ none ∧ sampleParseFloat (str "") = none ∧
      parseExpression sampleOps sampleParseFloat (str "3+")
        = (0, str "", 0, some "invalid second number")) :=
  ⟨⟨by decide, by decide, by decide,
      (parseExpression_invalid_operand sampleOps sampleParseFloat (str "abc+2")
        (by decide)).1 (by decide)⟩,
    ⟨by decide, by decide, by decide, by decide,
      (parseExpression_invalid_operand sampleOps sampleParseFloat (str "3+")
        (by decide)).2 (by decide) (by decide)⟩⟩

/-- C5: whatever `ParseFloat` does, `parseExpression` returns `(0, "", 0)` with
the error "no expression to evaluate" for the empty string, and with the error
"invalid expression" for every non-empty string without any of the characters
`+ - * /`, whose split is the single token made of the whole string. -/
theorem parseExpression_invalid_expression {F : Type} (ops : Float64Ops F)
    (ParseFloat : GoString → Option F) :
    parseExpression ops ParseFloat (str "")
      = (ops.zero, str "", ops.zero, some "no expression to evaluate") ∧
    ∀ s : GoString, s ≠ [] → containsOperator s = false →
      splitExpressionWithDelimiter s = [s] ∧
      parseExpression ops ParseFloat s
        = (ops.zero, str "", ops.zero, some "invalid expression") := by
  refine ⟨rfl, ?_⟩
  intro s hs h
  have hsplit := split_noOperator s h
  refine ⟨hsplit, ?_⟩
  apply parseExpression_not_three_tokens ops ParseFloat s hs
  rw [hsplit]
  simp

/-- Instances of C5: `"12"`, which `ParseFloat` would accept, and `"abc"` both
fail with "invalid expression". -/
theorem parseExpression_invalid_expression_witness :
    sampleParseFloat (str "12") = some 12 ∧
    parseExpression sampleOps sampleParseFloat (str "12")
      = (0, str "", 0, some "invalid expression") ∧
    parseExpression sampleOps sampleParseFloat (str "abc")
      = (0, str "", 0, some "invalid expression") :=
  ⟨by decide,
    ((parseExpression_invalid_expression sampleOps sampleParseFloat).2 (str "12")
      (by decide) (by decide)).2,
    ((parseExpression_invalid_expression sampleOps sampleParseFloat).2 (str "abc")
      (by decide) (by decide)).2⟩

/-! ## The evaluator -/

/-- C6: for all operands, `calculateExpression` returns with a nil error
`first + second` for `"+"`, `first - second` for `"-"`, `first * second` for
`"*"` and `first / second` for `"/"`, the operands in this order; a zero divisor
is no exception: the result is the quotient computed by the division of
`float64`, and the error is nil. -/
theorem calculateExpression_arithmetic {F : Type} (ops : Float64Ops F)
    (first second : F) :
    calculateExpression ops first second (str "+") = (ops.add first second, none) ∧
    calculateExpression ops first second (str "-") = (ops.sub first second, none) ∧
    calculateExpression ops first second (str "*") = (ops.mul first second, none) ∧
    calculateExpression ops first second (str "/") = (ops.div first second, none) ∧
    calculateExpression ops first ops.zero (str "/") = (ops.div first ops.zero, none) :=
  ⟨rfl, rfl, rfl, rfl, rfl⟩

/-- Instances of C6 in exact arithmetic: `3 + 4` gives `7` and `10 / 2` gives
`5`, each with a nil error. -/
theorem calculateExpression_arithmetic_witness :
    calculateExpression sampleOps 3 4 (str "+") = (7, none) ∧
    calculateExpression sampleOps 10 2 (str "/") = (5, none) :=
  ⟨(calculateExpression_arithmetic sampleOps 3 4).1,
    (calculateExpression_arithmetic sampleOps 10 2).2.2.2.1⟩

/-- C7: `calculateExpression` returns an error exactly when the operator is not
one of the strings `"+"`, `"-"`, `"*"`, `"/"`, and then it returns `0` with the
error "invalid operator", whatever the operands. -/
theorem calculateExpression_error_iff {F : Type} (ops : Float64Ops F)
    (first second : F) (operator : GoString) :
    ((calculateExpression ops first second operator).2 ≠ none ↔
      operator ∉ operatorStrings) ∧
    (operator ∉ operatorStrings →
      calculateExpression ops first second operator
        = (ops.zero, some "invalid operator")) := by
  have hbad : operator ∉ operatorStrings →
      calculateExpression ops first second operator
        = (ops.zero, some "invalid operator") := by
    intro h
    have hs : operatorStrings = [str "+", str "-", str "*", str "/"] := rfl
    rw [hs] at h
    simp only [List.mem_cons, List.mem_singleton, List.not_mem_nil, or_false,
      not_or] at h
    simp [calculateExpression, h.1, h.2.1, h.2.2.1, h.2.2.2]
  refine ⟨⟨?_, ?_⟩, hbad⟩
  · intro herr hmem
    exact herr (calculateExpression_of_mem ops first second operator hmem)
  · intro h
    rw [hbad h]
    simp

/-- Instances of C7: the operators `"%"`, `""` and `"++"` are rejected. -/
theorem calculateExpression_error_iff_witness :
    calculateExpression sampleOps 3 4 (str "%") = (0, some "invalid operator") ∧
    calculateExpression sampleOps 3 4 (str "") = (0, some "invalid operator") ∧
    calculateExpression sampleOps 3 4 (str "++") = (0, some "invalid operator") ∧
    (calculateExpression sampleOps 3 4 (str "+")).2 = none :=
  ⟨(calculateExpression_error_iff sampleOps 3 4 (str "%")).2 (by decide),
    (calculateExpression_error_iff sampleOps 3 4 (str "")).2 (by decide),
    (calculateExpression_error_iff sampleOps 3 4 (str "++")).2 (by decide),
    by
      have h := (calculateExpression_error_iff sampleOps 3 4 (str "+")).1
      exact Classical.not_not.mp (fun hne => h.mp hne (by decide))⟩

/-! ## The hub -/

/-- C8 fails as stated: after connection `7` has registered and its session has
terminated, `7` is closed and no longer open, and still a key of `clients`. -/
theorem closed_connection_still_registered :
    7 ∈ (run [Event.connect 7, Event.terminate 7]).clients ∧
    7 ∈ (run [Event.connect 7, Event.terminate 7]).closed ∧
    7 ∉ (run [Event.connect 7, Event.terminate 7]).live ∧
    ¬ (∀ c, c ∈ (run [Event.connect 7, Event.terminate 7]).clients ↔
        c ∈ (run [Event.connect 7, Event.terminate 7]).live) := by
  refine ⟨by decide, by decide, by decide, ?_⟩
  intro h
  exact absurd ((h 7).mp (by decide)) (by decide)

/-- C8, amended: in every reachable state the keys of `clients` are exactly the
connections that have registered, the open ones and the closed ones alike (no
connection is both), and no step removes a key: a connection stays in `clients`
after its session has terminated. -/
theorem clients_are_all_registered_connections (evs : List Event) :
    (∀ c, c ∈ (run evs).clients ↔ c ∈ (run evs).live ∨ c ∈ (run evs).closed) ∧
    (∀ c, c ∈ (run evs).live → c ∉ (run evs).closed) ∧
    (∀ e c, c ∈ (run evs).clients → c ∈ (step (run evs) e).clients) ∧
    (∀ c, c ∈ (run evs).live →
      c ∈ (step (run evs) (Event.terminate c)).clients ∧
      c ∈ (step (run evs) (Event.terminate c)).closed ∧
      c ∉ (step (run evs) (Event.terminate c)).live) := by
  have hinv := inv_run evs
  refine ⟨hinv.registered, hinv.disjoint, ?_, ?_⟩
  · intro e c hc
    exact clients_step_mono (run evs) e c hc
  · intro c hc
    have hmem : c ∈ (run evs).clients := (hinv.registered c).mpr (Or.inl hc)
    refine ⟨clients_step_mono (run evs) _ c hmem, ?_, ?_⟩
    · simp [step, hc]
    · simp only [step, hc, if_true]
      intro hin
      exact ((hinv.live_nodup.mem_erase_iff).mp hin).1 rfl

/-- Instance of amended C8: with `1` and `2` registered, `1` terminated, both
are keys of `clients`, and `2` remains one after it terminates too. -/
theorem clients_are_all_registered_connections_witness :
    (run [Event.connect 1, Event.connect 2, Event.terminate 1]).clients = [2, 1] ∧
    2 ∈ (run [Event.connect 1, Event.connect 2, Event.terminate 1]).live ∧
    2 ∈ (step (run [Event.connect 1, Event.connect 2, Event.terminate 1])
          (Event.terminate 2)).clients ∧
    2 ∉ (step (run [Event.connect 1, Event.connect 2, Event.terminate 1])
          (Event.terminate 2)).live :=
  ⟨by decide, by decide,
    ((clients_are_all_registered_connections
      [Event.connect 1, Event.connect 2, Event.terminate 1]).2.2.2 2 (by decide)).1,
    ((clients_are_all_registered_connections
      [Event.connect 1, Event.connect 2, Event.terminate 1]).2.2.2 2 (by decide)).2.2⟩

/-- C9: in one broadcast round over the keys of `clients` in iteration order,
the client set (and the open and closed connections) are left as they were; if
no write fails, the payload is written once to every registered connection, in
that order; if the first failing write is the one to `c`, the payload is written
to the connections before `c` and to `c`, and to none of the connections after
`c`. -/
theorem broadCastRound_writes (s : Server) (message : GoString) (order : List Conn)
    (writeFails : Conn → Bool) (hkeys : order.Perm s.clients)
    (hnodup : s.clients.Nodup) :
    (broadCastRound s message order writeFails).clients = s.clients ∧
    (broadCastRound s message order writeFails).live = s.live ∧
    (broadCastRound s message order writeFails).closed = s.closed ∧
    ((∀ c ∈ order, writeFails c = false) →
      (broadCastRound s message order writeFails).written
        = s.written ++ order.map (fun c => (c, message)) ∧
      ∀ c ∈ s.clients,
        ((writeLoop writeFails message order).map Prod.fst).count c = 1) ∧
    (∀ pre c post, order = pre ++ c :: post →
      (∀ x ∈ pre, writeFails x = false) → writeFails c = true →
      (broadCastRound s message order writeFails).written
        = s.written ++ (pre ++ [c]).map (fun x => (x, message)) ∧
      ∀ x ∈ post, (x, message) ∉ writeLoop writeFails message order) := by
  have hond : order.Nodup := hkeys.nodup_iff.mpr hnodup
  refine ⟨rfl, rfl, rfl, ?_, ?_⟩
  · intro hok
    have hw := writeLoop_all_ok writeFails message order hok
    refine ⟨by simp [broadCastRound, hw], ?_⟩
    intro c hc
    have hco : c ∈ order := hkeys.mem_iff.mpr hc
    have hfst : (order.map fun c => (c, message)).map Prod.fst = order := by
      simp [List.map_map, Function.comp_def]
    rw [hw, hfst]
    exact List.count_eq_one_of_mem hond hco
  · intro pre c post horder hpre hc
    have hw := writeLoop_first_failure writeFails message pre c post hpre hc
    rw [← horder] at hw
    refine ⟨by simp [broadCastRound, hw], ?_⟩
    intro x hx hmem
    rw [hw] at hmem
    obtain ⟨y, hy, hyx⟩ := List.mem_map.mp hmem
    have hyx2 : y = x := (Prod.mk.inj hyx).1
    subst hyx2
    rw [horder] at hond
    have hdis := List.nodup_append.mp hond
    rcases List.mem_append.mp hy with h | h
    · exact hdis.2.2 h (List.mem_cons_of_mem c hx)
    · have hyc : y = c := List.mem_singleton.mp h
      subst hyc
      exact (List.nodup_cons.mp hdis.2.1).1 hx

/-- Instances of C9 with the keys `2, 1, 0` visited in the order `1, 2, 0`: when
no write fails all three are written to; when the write to `2` fails, `1` and
`2` are written to and `0` is not; `clients` stays `[2, 1, 0]`. -/
theorem broadCastRound_writes_witness :
    (run [Event.connect 0, Event.connect 1, Event.connect 2]).clients = [2, 1, 0] ∧
    (broadCastRound (run [Event.connect 0, Event.connect 1, Event.connect 2])
        (str "m") [1, 2, 0] (fun _ => false)).written
      = [(1, str "m"), (2, str "m"), (0, str "m")] ∧
    (broadCastRound (run [Event.connect 0, Event.connect 1, Event.connect 2])
        (str "m") [1, 2, 0] (fun c => c == 2)).written
      = [(1, str "m"), (2, str "m")] ∧
    (broadCastRound (run [Event.connect 0, Event.connect 1, Event.connect 2])
        (str "m") [1, 2, 0] (fun c => c == 2)).clients = [2, 1, 0] :=
  ⟨by decide,
    ((broadCastRound_writes (run [Event.connect 0, Event.connect 1, Event.connect 2])
      (str "m") [1, 2, 0] (fun _ => false) (by decide) (by decide)).2.2.2.1
        (by decide)).1,
    ((broadCastRound_writes (run [Event.connect 0, Event.connect 1, Event.connect 2])
      (str "m") [1, 2, 0] (fun c => c == 2) (by decide) (by decide)).2.2.2.2
        [1] 2 [0] rfl (by decide) rfl).1,
    (broadCastRound_writes (run [Event.connect 0, Event.connect 1, Event.connect 2])
      (str "m") [1, 2, 0] (fun c => c == 2) (by decide) (by decide)).1⟩

/-! ## Parser and evaluator together -/

/-- C10: when `parseExpression` succeeds, the operator it returns is one of the
one-character strings `"+"`, `"-"`, `"*"`, `"/"` and the input has exactly one
operator character; `calculateExpression` on the parsed values then returns a
nil error, so the loop body of the session sends a result and never takes the
`break` of the "calculate" branch. -/
theorem parse_then_calculate_never_fails {F : Type} (ops : Float64Ops F)
    (ParseFloat : GoString → Option F) (s : GoString) (x y : F) (operator : GoString)
    (h : parseExpression ops ParseFloat s = (x, operator, y, none)) :
    operator ∈ operatorStrings ∧ operator.length = 1 ∧ operatorCount s = 1 ∧
    (calculateExpression ops x y operator).2 = none ∧
    computeBody ops ParseFloat s
      = LoopOutcome.enqueue x operator y (calculateExpression ops x y operator).1 := by
  have hs : s ≠ [] := by
    intro h0
    subst h0
    simp [parseExpression] at h
  have hlen : (splitExpressionWithDelimiter s).length = 3 := by
    by_contra hne
    rw [parseExpression_not_three_tokens ops ParseFloat s hs hne] at h
    simp at h
  have hcount : operatorCount s = 1 := by
    have := split_length s
    omega
  have hc : containsOperator s = true := by
    cases hcs : containsOperator s with
    | true => rfl
    | false =>
      have := (operatorCount_eq_zero s).mpr hcs
      omega
  have hp := parseExpression_three_tokens ops ParseFloat s _ _ _
    (split_of_single_operator s hcount)
  rw [h] at hp
  have hop : operator = firstOperator s := by
    cases h1 : ParseFloat (beforeFirstOperator s) with
    | none => simp [h1] at hp
    | some a =>
      cases h2 : ParseFloat (afterFirstOperator s) with
      | none => simp [h1, h2] at hp
      | some b =>
        simp only [h1, h2, Prod.mk.injEq] at hp
        exact hp.2.1
  have hmem : operator ∈ operatorStrings := hop ▸ firstOperator_mem s hc
  have hl : operator.length = 1 := by
    obtain ⟨c, _, h1, _, _⟩ := first_operator_decomposition s hc
    rw [hop, h1]
    rfl
  have hcalc := calculateExpression_of_mem ops x y operator hmem
  refine ⟨hmem, hl, hcount, hcalc, ?_⟩
  unfold computeBody
  rw [h]
  simp only
  cases hr : calculateExpression ops x y operator with
  | mk r e =>
    rw [hr] at hcalc
    simp only at hcalc
    subst hcalc
    rfl

/-- Instance of C10: `"10/2"` parses to `(10, "/", 2)` and the loop body sends
the result `5`. -/
theorem parse_then_calculate_never_fails_witness :
    parseExpression sampleOps sampleParseFloat (str "10/2") = (10, str "/", 2, none) ∧
    (calculateExpression sampleOps 10 2 (str "/")).2 = none ∧
    computeBody sampleOps sampleParseFloat (str "10/2")
      = LoopOutcome.enqueue 10 (str "/") 2 5 :=
  ⟨by decide,
    (parse_then_calculate_never_fails sampleOps sampleParseFloat (str "10/2") 10 2
      (str "/") (by decide)).2.2.2.1,
    (parse_then_calculate_never_fails sampleOps sampleParseFloat (str "10/2") 10 2
      (str "/") (by decide)).2.2.2.2⟩

end EveryoneCalculator
